import Mathlib

/-!
# Hope-Log journal-to-suggestion pipeline: a shallow embedding

This file embeds the journal-to-suggestion extraction and deduplication
pipeline of the Hope-Log web application and proves properties of it.

Text is modelled as a list of character codes (`Text := List Nat`); the
helper `str` converts a Lean string literal into that representation so
concrete scenarios are readable.  JavaScript's `toLowerCase` is modelled on
the ASCII range, which covers every string the program compares.

Parts of the repository that are referenced by `server/routes.ts` but whose
source is not part of the checked tree (the `ai-suggestion-module` with
`processSingleEntry` / `processAllEntriesForUser`, and the storage layer's
query functions) are modelled from the specification; each such definition
carries a doc comment starting with `Modelled from the spec:`.  Everything
else is translated directly from the TypeScript sources.
-/

namespace HopeLog

/-- Character-code strings: the pipeline's text values. -/
abbrev Text := List Nat

/-- Conversion from a Lean string literal to its character codes (used only
to build concrete inputs). -/
def str (s : String) : Text := s.data.map Char.toNat

/-- ASCII whitespace recognition (space, tab, line feed, carriage return),
as used by JavaScript `trim` / whitespace collapsing on the texts the
program handles. -/
def isWs (n : Nat) : Bool := n == 32 || n == 9 || n == 10 || n == 13

/-- `toLowerCase` on one character code (ASCII range). -/
def lowerCode (n : Nat) : Nat := if 65 ≤ n ∧ n ≤ 90 then n + 32 else n

/-- `toLowerCase` on a text. -/
def lower (t : Text) : Text := t.map lowerCode

/-- `leadsWith v u`: `v` starts with `u`. -/
def leadsWith (v u : Text) : Bool :=
  match u, v with
  | [], _ => true
  | _ :: _, [] => false
  | a :: us, b :: vs => a == b && leadsWith vs us

/-- `containsSub v u`: `v` contains `u` as a contiguous substring, the
model of JavaScript `String.prototype.includes`. -/
def containsSub (v u : Text) : Bool :=
  match v with
  | [] => u.isEmpty
  | _ :: vs => leadsWith v u || containsSub vs u

/-- Terminal punctuation stripped by the normalizer: `.`, `!`, `?`, `,`,
`;`, `:`. -/
def isTermPunct (n : Nat) : Bool :=
  n == 46 || n == 33 || n == 63 || n == 44 || n == 59 || n == 58

/-- Drop the longest suffix whose characters all satisfy `p`. -/
def dropEndWhile (p : Nat → Bool) : Text → Text
  | [] => []
  | c :: cs =>
    let r := dropEndWhile p cs
    if r.isEmpty then (if p c then [] else [c]) else c :: r

/-- JavaScript `String.prototype.trim`: whitespace removed from both ends. -/
def trimT (t : Text) : Text := dropEndWhile isWs (t.dropWhile isWs)

/-- Collapse every run of whitespace into a single space. -/
def collapseWs : Text → Text
  | [] => []
  | [c] => [if isWs c then 32 else c]
  | c :: d :: t =>
    if isWs c && isWs d then collapseWs (d :: t)
    else (if isWs c then 32 else c) :: collapseWs (d :: t)

/-- A character that may be removed from the end of a canonical text:
trailing whitespace or terminal punctuation. -/
def isEndJunk (n : Nat) : Bool := isWs n || isTermPunct n

/-- Modelled from the spec: the Normalizer (`normalize(text)`) of the
ai-suggestion-module, whose source is not part of the checked tree.  It
lower-cases, trims, collapses internal whitespace and strips terminal
punctuation; trailing whitespace and terminal punctuation are removed in
one pass so that all four clauses hold of the result simultaneously. -/
def normalize (t : Text) : Text :=
  collapseWs (dropEndWhile isEndJunk ((lower t).dropWhile isWs))

/-- Modelled from the spec: the Similarity Matcher's curated stem list
("meditat-", "read", "walk", "water"). -/
def strongKeywords : List Text := [str "meditat", str "read", str "walk", str "water"]

/-- Both canonical texts contain a shared strong keyword. -/
def sharedStrong (a b : Text) : Bool :=
  strongKeywords.any (fun k => containsSub a k && containsSub b k)

/-- Canonical-form match: equality, substring either way, or a shared
strong keyword. -/
def canonMatch (a b : Text) : Bool :=
  a == b || containsSub a b || containsSub b a || sharedStrong a b

/-- Modelled from the spec: the Similarity Matcher
(`isDuplicate(candidateText, existingTexts)`), whose source is not part of
the checked tree: normalize both sides and match canonical forms. -/
def isDuplicate (cand : Text) (existing : List Text) : Bool :=
  existing.any (fun e => canonMatch (normalize cand) (normalize e))

/-- The last character of a text, if any. -/
def endChar : Text → Option Nat
  | [] => none
  | [c] => some c
  | _ :: c :: cs => endChar (c :: cs)

/-- No two adjacent characters are both whitespace. -/
def noAdjWs : Text → Prop
  | c :: d :: t => ¬(isWs c = true ∧ isWs d = true) ∧ noAdjWs (d :: t)
  | _ => True

/-! ## Data model (shared/schema tables, restricted to the fields the
pipeline reads and writes) -/

/-- A journal entry row, as created by `POST /api/journal-entries` and
`POST /api/journal-entries/save-chat` in `server/routes.ts`.  ISO date
strings are modelled as naturals that preserve their chronological order. -/
structure JournalEntry where
  id : Nat
  userId : Nat
  content : Text
  title : Text
  date : Nat
  isAiResponse : Bool
  isJournal : Bool
  transcript : Text
  analyzed : Bool
deriving DecidableEq, Repr

/-- An AI-suggested goal row (`ai_goals` table). -/
structure AiGoal where
  id : Nat
  userId : Nat
  name : Text
  description : Text
deriving DecidableEq, Repr

/-- An AI-suggested task row (`ai_tasks` table). -/
structure AiTask where
  id : Nat
  userId : Nat
  title : Text
  description : Text
  goalId : Option Nat
deriving DecidableEq, Repr

/-- An AI-suggested habit row (`ai_habits` table). -/
structure AiHabit where
  id : Nat
  userId : Nat
  title : Text
  description : Text
  frequency : Text
deriving DecidableEq, Repr

/-- A durable goal row (`goals` table); defaults on creation are
`target = 100`, `progress = 0` as in `server/routes.ts`. -/
structure Goal where
  id : Nat
  userId : Nat
  name : Text
  description : Text
  target : Nat
  progress : Nat
deriving DecidableEq, Repr

/-- A durable task row (`tasks` table). -/
structure Task where
  id : Nat
  userId : Nat
  title : Text
  description : Text
  completed : Bool
  goalId : Option Nat
deriving DecidableEq, Repr

/-- A durable habit row (`habits` table). -/
structure Habit where
  id : Nat
  userId : Nat
  title : Text
  description : Text
  frequency : Text
deriving DecidableEq, Repr

/-- The persistent store: every collection the pipeline touches, plus the
serial id counter handed out to new rows. -/
structure Store where
  entries : List JournalEntry
  goals : List Goal
  tasks : List Task
  habits : List Habit
  aiGoals : List AiGoal
  aiTasks : List AiTask
  aiHabits : List AiHabit
  nextId : Nat
deriving DecidableEq, Repr

/-! ## Extraction boundary -/

/-- A candidate goal inside an `ExtractionResult`. -/
structure CandidateGoal where
  name : Text
  description : Text
deriving DecidableEq, Repr

/-- A candidate task inside an `ExtractionResult`. -/
structure CandidateTask where
  title : Text
  description : Text
deriving DecidableEq, Repr

/-- A candidate habit inside an `ExtractionResult`. -/
structure CandidateHabit where
  title : Text
  description : Text
  frequency : Text
deriving DecidableEq, Repr

/-- The structured result of one Extraction Client call. -/
structure ExtractionResult where
  goals : List CandidateGoal
  tasks : List CandidateTask
  habits : List CandidateHabit
deriving DecidableEq, Repr

/-- The opaque generative capability: a batch of entries either yields a
structured result or fails with an `ExtractionError` (modelled as the
error of the `Except`). -/
abbrev ExtractFn := List JournalEntry → Except Unit ExtractionResult

/-- The run summary returned by the Suggestion Pipeline. -/
structure RunSummary where
  goalsCreated : Nat
  tasksCreated : Nat
  habitsCreated : Nat
  goalsSkipped : Nat
  tasksSkipped : Nat
  habitsSkipped : Nat
deriving DecidableEq, Repr

/-- The all-zero summary. -/
def zeroSummary : RunSummary := ⟨0, 0, 0, 0, 0, 0⟩

/-! ## Entry Selector -/

/-- Modelled from the spec: the storage query
`getUnanalyzedJournalEntriesByUserId` (storage layer not part of the
checked tree); the Entry Selector filters to
`isJournal == true && analyzed == false` for the user. -/
def getUnanalyzedJournalEntriesByUserId (s : Store) (u : Nat) : List JournalEntry :=
  s.entries.filter (fun e => e.userId == u && e.isJournal && !e.analyzed)

/-- Oldest-first ordering of journal entries. -/
def dateLe (a b : JournalEntry) : Prop := a.date ≤ b.date

instance : DecidableRel dateLe := fun a b => Nat.decLe a.date b.date

instance : IsTotal JournalEntry dateLe := ⟨fun a b => Nat.le_total a.date b.date⟩

instance : IsTrans JournalEntry dateLe := ⟨fun _ _ _ => Nat.le_trans⟩

/-- Modelled from the spec: `selectUnanalyzed(userId, limit)` of the Entry
Selector — unanalyzed journal entries of the user, ordered oldest-first,
capped at `limit`. -/
def selectUnanalyzed (s : Store) (u limit : Nat) : List JournalEntry :=
  (List.insertionSort dateLe (getUnanalyzedJournalEntriesByUserId s u)).take limit

/-- Set the analyzed flag of the listed entries (the
`storage.updateJournalEntry(id, { analyzed: true })` write). -/
def markEntry (ids : List Nat) (e : JournalEntry) : JournalEntry :=
  if ids.contains e.id then { e with analyzed := true } else e

/-- `markAnalyzed(entryIds)` of the Entry Selector. -/
def markAnalyzed (s : Store) (ids : List Nat) : Store :=
  { s with entries := s.entries.map (markEntry ids) }

/-! ## Suggestion Pipeline -/

/-- The per-user existing-text pool for goals: durable goal names plus live
suggested goal names. -/
def existingGoalTexts (s : Store) (u : Nat) : List Text :=
  (s.goals.filter (fun g => g.userId == u)).map (fun g => g.name) ++
    (s.aiGoals.filter (fun g => g.userId == u)).map (fun g => g.name)

/-- The per-user existing-text pool for tasks. -/
def existingTaskTexts (s : Store) (u : Nat) : List Text :=
  (s.tasks.filter (fun t => t.userId == u)).map (fun t => t.title) ++
    (s.aiTasks.filter (fun t => t.userId == u)).map (fun t => t.title)

/-- The per-user existing-text pool for habits. -/
def existingHabitTexts (s : Store) (u : Nat) : List Text :=
  (s.habits.filter (fun h => h.userId == u)).map (fun h => h.title) ++
    (s.aiHabits.filter (fun h => h.userId == u)).map (fun h => h.title)

/-- Modelled from the spec: the goal-candidate dedup/persist loop of the
Suggestion Pipeline (step 4 of `runForUser`); returns the updated store,
the created count and the skipped count.  A non-duplicate is persisted and
its normalized text joins the in-run pool. -/
def dedupGoals (u : Nat) : List CandidateGoal → List Text → Store → Store × Nat × Nat
  | [], _, s => (s, 0, 0)
  | c :: cs, pool, s =>
    if isDuplicate c.name pool then
      let r := dedupGoals u cs pool s
      (r.1, r.2.1, r.2.2 + 1)
    else
      let s' := { s with
        aiGoals := s.aiGoals ++ [⟨s.nextId, u, c.name, c.description⟩],
        nextId := s.nextId + 1 }
      let r := dedupGoals u cs (pool ++ [normalize c.name]) s'
      (r.1, r.2.1 + 1, r.2.2)

/-- Modelled from the spec: the task-candidate dedup/persist loop. -/
def dedupTasks (u : Nat) : List CandidateTask → List Text → Store → Store × Nat × Nat
  | [], _, s => (s, 0, 0)
  | c :: cs, pool, s =>
    if isDuplicate c.title pool then
      let r := dedupTasks u cs pool s
      (r.1, r.2.1, r.2.2 + 1)
    else
      let s' := { s with
        aiTasks := s.aiTasks ++ [⟨s.nextId, u, c.title, c.description, none⟩],
        nextId := s.nextId + 1 }
      let r := dedupTasks u cs (pool ++ [normalize c.title]) s'
      (r.1, r.2.1 + 1, r.2.2)

/-- Modelled from the spec: the habit-candidate dedup/persist loop. -/
def dedupHabits (u : Nat) : List CandidateHabit → List Text → Store → Store × Nat × Nat
  | [], _, s => (s, 0, 0)
  | c :: cs, pool, s =>
    if isDuplicate c.title pool then
      let r := dedupHabits u cs pool s
      (r.1, r.2.1, r.2.2 + 1)
    else
      let s' := { s with
        aiHabits := s.aiHabits ++ [⟨s.nextId, u, c.title, c.description, c.frequency⟩],
        nextId := s.nextId + 1 }
      let r := dedupHabits u cs (pool ++ [normalize c.title]) s'
      (r.1, r.2.1 + 1, r.2.2)

/-- Modelled from the spec: one pipeline pass over an already-selected
batch (steps 2–6 of `runForUser`): an empty batch returns an all-zero
summary without contacting extraction; an `ExtractionError` aborts without
marking anything analyzed; otherwise candidates are deduplicated per
category and every considered entry is marked analyzed.  The boolean
records whether the Extraction Client was contacted. -/
def runOnBatch (extract : ExtractFn) (s : Store) (u : Nat) (batch : List JournalEntry) :
    Store × Bool × Except Unit RunSummary :=
  if batch.isEmpty then (s, false, .ok zeroSummary)
  else
    match extract batch with
    | .error e => (s, true, .error e)
    | .ok res =>
      let g := dedupGoals u res.goals (existingGoalTexts s u) s
      let t := dedupTasks u res.tasks (existingTaskTexts s u) g.1
      let h := dedupHabits u res.habits (existingHabitTexts s u) t.1
      (markAnalyzed h.1 (batch.map (fun e => e.id)), true,
        .ok ⟨g.2.1, t.2.1, h.2.1, g.2.2, t.2.2, h.2.2⟩)

/-- Modelled from the spec: `runForUser(userId, limit)` — the
ai-suggestion-module's `processAllEntriesForUser`, whose source is not part
of the checked tree. -/
def runForUser (extract : ExtractFn) (s : Store) (u limit : Nat) :
    Store × Bool × Except Unit RunSummary :=
  runOnBatch extract s u (selectUnanalyzed s u limit)

/-- Modelled from the spec: the minimum content length of the Entry
Selector's cost-control gate, taken as 101 to match the
`content.length > 100` test in `server/routes.ts`. -/
def minContentLength : Nat := 101

/-- Modelled from the spec: the ai-suggestion-module's
`processSingleEntry`, whose source is not part of the checked tree — an
entry shorter than the minimum content length is marked analyzed
immediately without ever reaching the Extraction Client; otherwise the
entry runs through the pipeline.  The boolean records whether the
Extraction Client was contacted. -/
def processSingleEntry (extract : ExtractFn) (s : Store) (eid : Nat) : Store × Bool :=
  match s.entries.find? (fun e => e.id == eid) with
  | none => (s, false)
  | some e =>
    if e.content.length < minContentLength then (markAnalyzed s [eid], false)
    else
      let r := runOnBatch extract s e.userId [e]
      (r.1, r.2.1)

/-! ## Route handlers (`server/routes.ts`)

The handlers below are translated from `server/routes.ts` for an
authenticated request whose session user matches the `userId` the route
requires (the 401/403 guards that precede the translated bodies are not
part of the claims).  External AI results that do not feed back into the
pipeline (title generation, sentiment analysis) are taken as parameters or
recorded as flags. -/

/-- The observable outcome of a journal-entry save request: HTTP status,
resulting store, and whether sentiment analysis, background suggestion
processing and the Extraction Client were reached. -/
structure SaveResult where
  store : Store
  status : Nat
  sentimentCalled : Bool
  processStarted : Bool
  extractionCalled : Bool
deriving Repr

/-- `POST /api/journal-entries` (`server/routes.ts`): missing or
whitespace-only content is rejected with 400 before anything is created;
otherwise the entry is saved with `analyzed: false`, sentiment analysis
runs, and content longer than 100 characters starts background suggestion
processing while shorter content is marked analyzed immediately. -/
def postJournalEntryHandler (extract : ExtractFn) (titleFn : Text → Text) (s : Store)
    (userId : Nat) (content : Option Text) (transcript : Option Text) (date : Nat) :
    SaveResult :=
  match content with
  | none => ⟨s, 400, false, false, false⟩
  | some c =>
    if (trimT c).isEmpty then ⟨s, 400, false, false, false⟩
    else
      let e : JournalEntry :=
        ⟨s.nextId, userId, c, titleFn c, date, false, true, transcript.getD c, false⟩
      let s1 := { s with entries := s.entries ++ [e], nextId := s.nextId + 1 }
      if c.length > 100 then
        let r := processSingleEntry extract s1 e.id
        ⟨r.1, 201, true, true, r.2⟩
      else
        ⟨markAnalyzed s1 [e.id], 201, true, false, false⟩

/-- `POST /api/journal-entries/save-chat` (`server/routes.ts`), from the
point where the condensed chat entry is created with `analyzed: false`:
sentiment is stored and background suggestion processing is started
unconditionally (the chat-save path has no content-length gate of its own;
the gate lives inside `processSingleEntry`). -/
def saveChatHandler (extract : ExtractFn) (s : Store) (userId : Nat)
    (content title transcript : Text) (date : Nat) : SaveResult :=
  let e : JournalEntry :=
    ⟨s.nextId, userId, content, title, date, false, true, transcript, false⟩
  let s1 := { s with entries := s.entries ++ [e], nextId := s.nextId + 1 }
  let r := processSingleEntry extract s1 e.id
  ⟨r.1, 201, true, true, r.2⟩

/-- `GET /api/goals/:userId/generate-suggestions` (`server/routes.ts`):
with no unanalyzed journal entries the handler answers with a literal
all-zero summary without calling the suggestion module; otherwise it runs
`processAllEntriesForUser(userId, 3)`.  The boolean records whether the
Extraction Client was contacted. -/
def generateSuggestionsHandler (extract : ExtractFn) (s : Store) (userId : Nat) :
    Store × Bool × Except Unit RunSummary :=
  if (getUnanalyzedJournalEntriesByUserId s userId).isEmpty then
    (s, false, .ok zeroSummary)
  else runForUser extract s userId 3

/-- Modelled from the spec: the default `limit` of
`processAllEntriesForUser` when its caller passes none — the spec's
per-run cap, "small, e.g. 3", matching the explicit 3 at the other call
sites in `server/routes.ts`. -/
def defaultRunLimit : Nat := 3

/-- `POST /api/suggestions/process-user/:userId` (`server/routes.ts`):
runs `processAllEntriesForUser(userId)` with the module's default limit. -/
def processUserHandler (extract : ExtractFn) (s : Store) (userId : Nat) :
    Store × Bool × Except Unit RunSummary :=
  runForUser extract s userId defaultRunLimit

/-! ## Lifecycle Manager (`server/routes.ts` accept/reject endpoints) -/

/-- The terminal failures of the lifecycle endpoints: 404 and 403. -/
inductive ApiError
  | notFound
  | forbidden
deriving DecidableEq, Repr

/-- `storage.getAiGoalById`. -/
def getAiGoalById (s : Store) (gid : Nat) : Option AiGoal :=
  s.aiGoals.find? (fun g => g.id == gid)

/-- `storage.getAiHabitById`. -/
def getAiHabitById (s : Store) (hid : Nat) : Option AiHabit :=
  s.aiHabits.find? (fun h => h.id == hid)

/-- `POST /api/ai-goals/:id/accept` (`server/routes.ts`): 404 when the
suggestion does not exist, 403 when the requester does not own it;
otherwise `storage.acceptAiGoal` — modelled from the spec's Lifecycle
Manager (storage layer not part of the checked tree) — creates the durable
goal with default progress and deletes the suggestion row in one step. -/
def acceptAiGoalHandler (s : Store) (requester gid : Nat) : Store × Except ApiError Goal :=
  match getAiGoalById s gid with
  | none => (s, .error .notFound)
  | some g =>
    if requester ≠ g.userId then (s, .error .forbidden)
    else
      let newGoal : Goal := ⟨s.nextId, g.userId, g.name, g.description, 100, 0⟩
      ({ s with
          aiGoals := s.aiGoals.filter (fun x => x.id ≠ gid),
          goals := s.goals ++ [newGoal],
          nextId := s.nextId + 1 },
        .ok newGoal)

/-- `DELETE /api/ai-goals/:id` (`server/routes.ts`): the reject operation —
same existence and ownership checks, then `storage.deleteAiGoal` removes
the suggestion row and nothing else. -/
def rejectAiGoalHandler (s : Store) (requester gid : Nat) : Store × Except ApiError Unit :=
  match getAiGoalById s gid with
  | none => (s, .error .notFound)
  | some g =>
    if requester ≠ g.userId then (s, .error .forbidden)
    else ({ s with aiGoals := s.aiGoals.filter (fun x => x.id ≠ gid) }, .ok ())

/-- `DELETE /api/ai-habits/:id` (`server/routes.ts`): reject for habit
suggestions. -/
def rejectAiHabitHandler (s : Store) (requester hid : Nat) : Store × Except ApiError Unit :=
  match getAiHabitById s hid with
  | none => (s, .error .notFound)
  | some h =>
    if requester ≠ h.userId then (s, .error .forbidden)
    else ({ s with aiHabits := s.aiHabits.filter (fun x => x.id ≠ hid) }, .ok ())

/-! ## Client-side duplicate filter and category heuristic
(`client/src/pages/goals-page-backup.tsx`) -/

/-- A durable goal as the goals page sees it (only the name takes part in
the duplicate filter). -/
structure ClientGoal where
  name : Text
deriving DecidableEq, Repr

/-- An AI-suggested goal as the goals page displays it. -/
structure SuggestedGoalItem where
  name : Text
  description : Text
deriving DecidableEq, Repr

/-- One user goal matching one AI-suggested goal in the goals page filter:
containment either way on the lower-cased names, or one of the three
keyword pairs. -/
def goalMatches (userGoalName aiGoalName : Text) : Bool :=
  containsSub userGoalName aiGoalName ||
  containsSub aiGoalName userGoalName ||
  (containsSub aiGoalName (str "meditate") && containsSub userGoalName (str "meditat")) ||
  (containsSub aiGoalName (str "read") && containsSub userGoalName (str "read")) ||
  (containsSub aiGoalName (str "learn") && containsSub userGoalName (str "learn"))

/-- The `filteredAiSuggestedGoals` effect of the goals page: with at least
one existing goal, AI-suggested goals that match an existing goal are
dropped; with none, the list passes through unfiltered. -/
def filterAiSuggestedGoals (goals : List ClientGoal) (ais : List SuggestedGoalItem) :
    List SuggestedGoalItem :=
  if goals.length > 0 then
    ais.filter (fun aiGoal =>
      !(goals.any (fun userGoal => goalMatches (lower userGoal.name) (lower aiGoal.name))))
  else ais

/-- The goal categories produced by the goals page heuristic. -/
inductive Category
  | Learning
  | Health
  | Financial
  | Relationships
  | Career
  | Personal
deriving DecidableEq, Repr

/-- `getGoalCategory` of the goals page: keyword tests on the lower-cased
name, first hit wins. -/
def getGoalCategory (goalName : Text) : Category :=
  let name := lower goalName
  if containsSub name (str "read") || containsSub name (str "learn") ||
      containsSub name (str "study") then .Learning
  else if containsSub name (str "exercise") || containsSub name (str "workout") ||
      containsSub name (str "run") || containsSub name (str "meditate") then .Health
  else if containsSub name (str "save") || containsSub name (str "budget") ||
      containsSub name (str "invest") then .Financial
  else if containsSub name (str "family") || containsSub name (str "friend") ||
      containsSub name (str "relationship") then .Relationships
  else if containsSub name (str "job") || containsSub name (str "career") ||
      containsSub name (str "work") then .Career
  else .Personal

/-- The explicit keyword table the spec asks the category heuristic to be
equivalent to: rules in precedence order, each a keyword list and the
category it assigns. -/
def categoryTable : List (List Text × Category) :=
  [([str "read", str "learn", str "study"], .Learning),
   ([str "exercise", str "workout", str "run", str "meditate"], .Health),
   ([str "save", str "budget", str "invest"], .Financial),
   ([str "family", str "friend", str "relationship"], .Relationships),
   ([str "job", str "career", str "work"], .Career)]

/-- Table-driven category classification following the spec's words: the
first table rule one of whose keywords occurs in the lower-cased name
decides the category; no rule firing gives `Personal`. -/
def categoryByTable (goalName : Text) : Category :=
  match categoryTable.find? (fun r => r.1.any (fun k => containsSub (lower goalName) k)) with
  | some r => r.2
  | none => .Personal

/-! ## Pipeline-driven operations as a transition system (for the
analyzed-flag lifecycle) -/

/-- Every store-mutating operation the journal/suggestion surface in
`server/routes.ts` performs. -/
inductive SystemOp
  | postJournal (extract : ExtractFn) (titleFn : Text → Text) (userId : Nat)
      (content : Option Text) (transcript : Option Text) (date : Nat)
  | saveChat (extract : ExtractFn) (userId : Nat) (content title transcript : Text)
      (date : Nat)
  | generate (extract : ExtractFn) (userId : Nat)
  | processUser (extract : ExtractFn) (userId : Nat)
  | acceptGoal (requester gid : Nat)
  | rejectGoal (requester gid : Nat)
  | rejectHabit (requester hid : Nat)

/-- The store reached by one operation. -/
def applySystemOp (s : Store) : SystemOp → Store
  | .postJournal ex tf u c tr d => (postJournalEntryHandler ex tf s u c tr d).store
  | .saveChat ex u c t tr d => (saveChatHandler ex s u c t tr d).store
  | .generate ex u => (generateSuggestionsHandler ex s u).1
  | .processUser ex u => (processUserHandler ex s u).1
  | .acceptGoal r g => (acceptAiGoalHandler s r g).1
  | .rejectGoal r g => (rejectAiGoalHandler s r g).1
  | .rejectHabit r h => (rejectAiHabitHandler s r h).1

/-- The stores visited while running a list of operations. -/
def runOps (s : Store) : List SystemOp → List Store
  | [] => []
  | op :: ops =>
    let s' := applySystemOp s op
    s' :: runOps s' ops

/-- The analyzed flag of entry `eid` in an entry list: `none` while no such
entry exists. -/
def lookFlag (l : List JournalEntry) (eid : Nat) : Option Bool :=
  (l.find? (fun e => e.id == eid)).map (fun e => e.analyzed)

/-- The analyzed flag of entry `eid` in a store. -/
def entryAnalyzed (s : Store) (eid : Nat) : Option Bool := lookFlag s.entries eid

/-- The analyzed-flag history of entry `eid` along a run. -/
def flagTrace (s : Store) (ops : List SystemOp) (eid : Nat) : List (Option Bool) :=
  (s :: runOps s ops).map (fun st => entryAnalyzed st eid)

/-- Flag progress order: absent (0) before unanalyzed (1) before
analyzed (2). -/
def flagRank : Option Bool → Nat
  | none => 0
  | some false => 1
  | some true => 2

/-- One step of the analyzed-flag lifecycle never moves backwards. -/
def flagStep (a b : Option Bool) : Prop := flagRank a ≤ flagRank b

/-- The number of false-to-true transitions in a flag history. -/
def countFT : List (Option Bool) → Nat
  | a :: b :: t => (if a = some false ∧ b = some true then 1 else 0) + countFT (b :: t)
  | _ => 0

/-! ## Concrete fixtures for scenario runs -/

/-- The unanalyzed journal entry of the "Read more books" scenario. -/
def c1Entry : JournalEntry :=
  ⟨10, 1, str "I want to read more books every day.", str "note", 5, false, true,
    str "", false⟩

/-- Scenario state: user 1 owns one durable goal named "Read more books"
and has one unanalyzed journal entry. -/
def c1Store : Store :=
  ⟨[c1Entry], [⟨1, 1, str "Read more books", str "", 100, 0⟩], [], [], [], [], [], 20⟩

/-- Extraction stub whose run yields the candidate goal
"read more books daily". -/
def c1Extract : ExtractFn :=
  fun _ => .ok ⟨[⟨str "read more books daily", str ""⟩], [], []⟩

/-- A family of unanalyzed journal entries for the repeated-run scenario. -/
def c2Entry (i : Nat) : JournalEntry :=
  ⟨i, 1, str "walk", str "", i, false, true, str "", false⟩

/-- Scenario state: user 1 has four unanalyzed journal entries, one more
than the per-run limit. -/
def c2Store : Store :=
  ⟨[c2Entry 1, c2Entry 2, c2Entry 3, c2Entry 4], [], [], [], [], [], [], 50⟩

/-- Extraction stub that always proposes one fixed goal candidate. -/
def c2Extract : ExtractFn :=
  fun _ => .ok ⟨[⟨str "plan the week", str ""⟩], [], []⟩

/-! ## Lemmas about the text primitives -/

theorem lowerCode_idem (n : Nat) : lowerCode (lowerCode n) = lowerCode n := by
  unfold lowerCode
  split_ifs <;> omega

theorem lowerCode_not_upper (n : Nat) : ¬(65 ≤ lowerCode n ∧ lowerCode n ≤ 90) := by
  unfold lowerCode
  split_ifs <;> omega

theorem map_eq_self_of_forall {α : Type} (f : α → α) (l : List α)
    (h : ∀ x ∈ l, f x = x) : l.map f = l := by
  induction l with
  | nil => rfl
  | cons a t ih =>
    have h1 : f a = a := h a (List.mem_cons_self a t)
    simp [h1, ih fun x hx => h x (List.mem_cons_of_mem a hx)]

theorem endChar_cons {c : Nat} {r : Text} (h : r ≠ []) : endChar (c :: r) = endChar r := by
  cases r with
  | nil => exact absurd rfl h
  | cons a t => rfl

theorem head?_dropWhile_not (p : Nat → Bool) (l : Text) {c : Nat}
    (h : (l.dropWhile p).head? = some c) : p c = false := by
  induction l with
  | nil => simp at h
  | cons a t ih =>
    rw [List.dropWhile_cons] at h
    by_cases hp : p a = true
    · exact ih (by simpa [hp] using h)
    · simp only [hp, Bool.false_eq_true, if_false, List.head?_cons, Option.some.injEq] at h
      subst h
      exact Bool.eq_false_iff.mpr hp

theorem dropWhile_eq_self_of_head (p : Nat → Bool) (l : Text)
    (h : ∀ c, l.head? = some c → p c = false) : l.dropWhile p = l := by
  cases l with
  | nil => rfl
  | cons a t => simp [List.dropWhile_cons, h a rfl]

theorem dropEndWhile_endChar (p : Nat → Bool) (l : Text) {c : Nat}
    (h : endChar (dropEndWhile p l) = some c) : p c = false := by
  induction l with
  | nil => simp [dropEndWhile, endChar] at h
  | cons a t ih =>
    rw [dropEndWhile] at h
    cases hr : dropEndWhile p t with
    | nil =>
      simp only [hr, List.isEmpty_nil, if_true] at h
      by_cases hp : p a = true
      · simp [hp, endChar] at h
      · simp only [hp, Bool.false_eq_true, if_false, endChar, Option.some.injEq] at h
        subst h
        exact Bool.eq_false_iff.mpr hp
    | cons b r =>
      simp only [hr, List.isEmpty_cons, Bool.false_eq_true, if_false] at h
      rw [endChar_cons (by simp)] at h
      exact ih (hr ▸ h)

theorem dropEndWhile_head (p : Nat → Bool) (l : Text) {c : Nat}
    (h : (dropEndWhile p l).head? = some c) : l.head? = some c := by
  cases l with
  | nil => simp [dropEndWhile] at h
  | cons a t =>
    rw [dropEndWhile] at h
    cases hr : dropEndWhile p t with
    | nil =>
      simp only [hr, List.isEmpty_nil, if_true] at h
      by_cases hp : p a = true
      · simp [hp] at h
      · simp only [hp, Bool.false_eq_true, if_false, List.head?_cons] at h
        simpa using h
    | cons b r =>
      simp only [hr, List.isEmpty_cons, Bool.false_eq_true, if_false, List.head?_cons] at h
      simp only [List.head?_cons]
      exact h

theorem dropEndWhile_mem (p : Nat → Bool) (l : Text) {x : Nat}
    (h : x ∈ dropEndWhile p l) : x ∈ l := by
  induction l with
  | nil => simp [dropEndWhile] at h
  | cons a t ih =>
    rw [dropEndWhile] at h
    cases hr : dropEndWhile p t with
    | nil =>
      simp only [hr, List.isEmpty_nil, if_true] at h
      by_cases hp : p a = true
      · simp [hp] at h
      · simp only [hp, Bool.false_eq_true, if_false, List.mem_singleton] at h
        simp [h]
    | cons b r =>
      simp only [hr, List.isEmpty_cons, Bool.false_eq_true, if_false, List.mem_cons] at h
      rcases h with h | h
      · simp [h]
      · refine List.mem_cons_of_mem a (ih ?_)
        rw [hr]
        exact List.mem_cons.mpr h

theorem dropEndWhile_eq_self (p : Nat → Bool) (l : Text)
    (h : ∀ c, endChar l = some c → p c = false) : dropEndWhile p l = l := by
  induction l with
  | nil => rfl
  | cons a t ih =>
    rw [dropEndWhile]
    cases t with
    | nil =>
      have : p a = false := h a rfl
      simp [dropEndWhile, this]
    | cons b r =>
      have ht : dropEndWhile p (b :: r) = b :: r :=
        ih fun c hc => h c ((endChar_cons (by simp)).trans hc)
      simp [ht]

theorem collapseWs_ne_nil {l : Text} (h : l ≠ []) : collapseWs l ≠ [] := by
  induction l using collapseWs.induct with
  | case1 => exact absurd rfl h
  | case2 c => simp [collapseWs]
  | case3 c d t hw ih => rw [collapseWs, if_pos hw]; exact ih (by simp)
  | case4 c d t hw ih => rw [collapseWs, if_neg hw]; simp

theorem collapseWs_head? (l : Text) :
    (collapseWs l).head? = l.head?.map (fun d => if isWs d then 32 else d) := by
  induction l using collapseWs.induct with
  | case1 => rfl
  | case2 c => rfl
  | case3 c d t hw ih =>
    rcases Bool.and_eq_true _ _ |>.mp hw with ⟨hc, hd⟩
    rw [collapseWs, if_pos hw, ih]
    simp [hc, hd]
  | case4 c d t hw ih => rw [collapseWs, if_neg hw, List.head?_cons]; rfl

theorem collapseWs_head (d : Nat) (t : Text) :
    (collapseWs (d :: t)).head? = some (if isWs d then 32 else d) := by
  rw [collapseWs_head?]; rfl

theorem collapseWs_mem {l : Text} {x : Nat} (h : x ∈ collapseWs l) : x = 32 ∨ x ∈ l := by
  induction l using collapseWs.induct with
  | case1 => simp [collapseWs] at h
  | case2 c =>
    simp only [collapseWs, List.mem_singleton] at h
    by_cases hw : isWs c = true
    · rw [if_pos hw] at h; exact Or.inl h
    · rw [if_neg hw] at h; simp [h]
  | case3 c d t hw ih =>
    rw [collapseWs, if_pos hw] at h
    rcases ih h with h' | h'
    · exact Or.inl h'
    · exact Or.inr (List.mem_cons_of_mem c h')
  | case4 c d t hw ih =>
    rw [collapseWs, if_neg hw, List.mem_cons] at h
    rcases h with h' | h'
    · by_cases hc : isWs c = true
      · rw [if_pos hc] at h'; exact Or.inl h'
      · rw [if_neg hc] at h'; simp [h']
    · rcases ih h' with h'' | h''
      · exact Or.inl h''
      · exact Or.inr (List.mem_cons_of_mem c h'')

theorem collapseWs_ws_canon {l : Text} {x : Nat} (h : x ∈ collapseWs l)
    (hx : isWs x = true) : x = 32 := by
  induction l using collapseWs.induct with
  | case1 => simp [collapseWs] at h
  | case2 c =>
    simp only [collapseWs, List.mem_singleton] at h
    by_cases hw : isWs c = true
    · rw [if_pos hw] at h; exact h
    · rw [if_neg hw] at h; rw [h] at hx; exact absurd hx hw
  | case3 c d t hw ih => rw [collapseWs, if_pos hw] at h; exact ih h
  | case4 c d t hw ih =>
    rw [collapseWs, if_neg hw, List.mem_cons] at h
    rcases h with h' | h'
    · by_cases hc : isWs c = true
      · rw [if_pos hc] at h'; exact h'
      · rw [if_neg hc] at h'; rw [h'] at hx; exact absurd hx hc
    · exact ih h'

theorem noAdjWs_cons {x : Nat} {l : Text}
    (h1 : ∀ y, l.head? = some y → ¬(isWs x = true ∧ isWs y = true))
    (h2 : noAdjWs l) : noAdjWs (x :: l) := by
  cases l with
  | nil => trivial
  | cons y t => exact ⟨h1 y rfl, h2⟩

theorem collapseWs_noAdjWs (l : Text) : noAdjWs (collapseWs l) := by
  induction l using collapseWs.induct with
  | case1 => trivial
  | case2 c => exact trivial
  | case3 c d t hw ih => rw [collapseWs, if_pos hw]; exact ih
  | case4 c d t hw ih =>
    rw [collapseWs, if_neg hw]
    refine noAdjWs_cons (fun y hy h2 => ?_) ih
    rw [collapseWs_head d t] at hy
    have hd : isWs d = false := by
      by_contra hd'
      have hd'' : isWs d = true := by
        cases hdd : isWs d with
        | false => exact absurd hdd hd'
        | true => rfl
      by_cases hc : isWs c = true
      · exact hw (by rw [hc, hd'']; rfl)
      · rw [if_neg hc] at h2
        exact hc h2.1
    rw [hd] at hy
    rw [if_neg Bool.false_ne_true] at hy
    cases hy
    rw [hd] at h2
    exact Bool.false_ne_true h2.2

theorem collapseWs_endChar {l : Text} {c : Nat} (h : endChar l = some c)
    (hc : isWs c = false) : endChar (collapseWs l) = some c := by
  induction l using collapseWs.induct with
  | case1 => simp [endChar] at h
  | case2 x =>
    simp only [endChar, Option.some.injEq] at h
    subst h
    simp only [collapseWs, endChar, Option.some.injEq]
    rw [if_neg (by simp [hc])]
  | case3 x d t hw ih =>
    rw [collapseWs, if_pos hw]
    exact ih (by rwa [endChar_cons (by simp)] at h)
  | case4 x d t hw ih =>
    rw [collapseWs, if_neg hw]
    have ht : endChar (collapseWs (d :: t)) = some c :=
      ih (by rwa [endChar_cons (by simp)] at h)
    rw [endChar_cons (collapseWs_ne_nil (by simp))]
    exact ht

theorem collapseWs_eq_self {l : Text} (h1 : noAdjWs l)
    (h2 : ∀ x ∈ l, isWs x = true → x = 32) : collapseWs l = l := by
  induction l using collapseWs.induct with
  | case1 => rfl
  | case2 c =>
    simp only [collapseWs]
    by_cases hw : isWs c = true
    · rw [if_pos hw, h2 c (by simp) hw]
    · rw [if_neg hw]
  | case3 c d t hw ih =>
    rcases Bool.and_eq_true _ _ |>.mp hw with ⟨hc, hd⟩
    exact absurd ⟨hc, hd⟩ h1.1
  | case4 c d t hw ih =>
    rw [collapseWs, if_neg hw]
    have ht : collapseWs (d :: t) = d :: t :=
      ih h1.2 fun x hx => h2 x (List.mem_cons_of_mem c hx)
    rw [ht]
    by_cases hc : isWs c = true
    · rw [if_pos hc, h2 c (by simp) hc]
    · rw [if_neg hc]

theorem endChar_isSome {l : Text} (h : l ≠ []) : ∃ c, endChar l = some c := by
  induction l with
  | nil => exact absurd rfl h
  | cons a t ih =>
    cases t with
    | nil => exact ⟨a, rfl⟩
    | cons b r =>
      rcases ih (by simp) with ⟨c, hc⟩
      exact ⟨c, (endChar_cons (by simp)).trans hc⟩

theorem normalize_mem {t : Text} {x : Nat} (h : x ∈ normalize t) :
    x = 32 ∨ x ∈ lower t := by
  rcases collapseWs_mem h with h' | h'
  · exact Or.inl h'
  · exact Or.inr ((List.dropWhile_sublist isWs).subset (dropEndWhile_mem _ _ h'))

theorem normalize_no_upper (t : Text) : ∀ x ∈ normalize t, ¬(65 ≤ x ∧ x ≤ 90) := by
  intro x hx
  rcases normalize_mem hx with h | h
  · omega
  · rcases List.mem_map.mp h with ⟨y, _, hy⟩
    exact hy ▸ lowerCode_not_upper y

theorem normalize_head_not_ws (t : Text) {c : Nat}
    (h : (normalize t).head? = some c) : isWs c = false := by
  unfold normalize at h
  rw [collapseWs_head?] at h
  cases hX : (dropEndWhile isEndJunk ((lower t).dropWhile isWs)).head? with
  | none => rw [hX] at h; simp at h
  | some d =>
    rw [hX] at h
    have hd : isWs d = false :=
      head?_dropWhile_not isWs (lower t) (dropEndWhile_head _ _ hX)
    simp only [Option.map_some', Option.some.injEq] at h
    rw [hd, if_neg Bool.false_ne_true] at h
    rw [← h]
    exact hd

theorem normalize_endChar (t : Text) {c : Nat}
    (h : endChar (normalize t) = some c) : isEndJunk c = false := by
  unfold normalize at h
  by_cases hX : dropEndWhile isEndJunk ((lower t).dropWhile isWs) = []
  · rw [hX] at h; simp [collapseWs, endChar] at h
  · rcases endChar_isSome hX with ⟨e, he⟩
    have hj : isEndJunk e = false := dropEndWhile_endChar _ _ he
    have hw : isWs e = false := by
      unfold isEndJunk at hj
      exact (Bool.or_eq_false_iff.mp hj).1
    have := collapseWs_endChar he hw
    rw [this] at h
    cases h
    exact hj

theorem normalize_noAdjWs (t : Text) : noAdjWs (normalize t) :=
  collapseWs_noAdjWs _

theorem normalize_ws_canon (t : Text) : ∀ x ∈ normalize t, isWs x = true → x = 32 :=
  fun _ hx hw => collapseWs_ws_canon hx hw

theorem normalize_idem (t : Text) : normalize (normalize t) = normalize t := by
  have hlow : lower (normalize t) = normalize t := by
    refine map_eq_self_of_forall _ _ (fun x hx => ?_)
    rcases normalize_mem hx with h | h
    · rw [h]; rfl
    · rcases List.mem_map.mp h with ⟨y, _, hy⟩
      rw [← hy]
      exact lowerCode_idem y
  have hdrop : (normalize t).dropWhile isWs = normalize t :=
    dropWhile_eq_self_of_head _ _ (fun c hc => normalize_head_not_ws t hc)
  have hend : dropEndWhile isEndJunk (normalize t) = normalize t :=
    dropEndWhile_eq_self _ _ (fun c hc => normalize_endChar t hc)
  have hcol : collapseWs (normalize t) = normalize t :=
    collapseWs_eq_self (normalize_noAdjWs t) (normalize_ws_canon t)
  show collapseWs (dropEndWhile isEndJunk ((lower (normalize t)).dropWhile isWs)) =
    normalize t
  rw [hlow, hdrop, hend, hcol]

theorem isDuplicate_normalize_cand (c : Text) (es : List Text) :
    isDuplicate (normalize c) es = isDuplicate c es := by
  unfold isDuplicate
  rw [normalize_idem]

theorem isDuplicate_normalize_pool (c : Text) (es : List Text) :
    isDuplicate c (es.map normalize) = isDuplicate c es := by
  unfold isDuplicate
  rw [List.any_map]
  have : (fun e => canonMatch (normalize c) (normalize e)) ∘ normalize =
      fun e => canonMatch (normalize c) (normalize e) := by
    funext e
    simp only [Function.comp_apply, normalize_idem]
  rw [this]

/-! ## Lemmas about the store and the pipeline -/

theorem contains_iff_mem (l : List Nat) (a : Nat) : l.contains a = true ↔ a ∈ l := by
  show l.elem a = true ↔ a ∈ l
  exact List.elem_iff

theorem markEntry_nil (e : JournalEntry) : markEntry [] e = e := rfl

theorem markEntry_id (ids : List Nat) (e : JournalEntry) : (markEntry ids e).id = e.id := by
  unfold markEntry
  split <;> rfl

theorem find?_map_pres {α : Type} (p : α → Bool) (f : α → α) (l : List α)
    (hf : ∀ x, p (f x) = p x) : (l.map f).find? p = (l.find? p).map f := by
  induction l with
  | nil => rfl
  | cons a t ih =>
    simp only [List.map_cons, List.find?_cons]
    rw [hf a]
    cases hp : p a
    · exact ih
    · rfl

theorem dedupGoals_entries (u : Nat) (cs : List CandidateGoal) (pool : List Text)
    (s : Store) : (dedupGoals u cs pool s).1.entries = s.entries := by
  induction cs generalizing pool s with
  | nil => rfl
  | cons c cs ih =>
    rw [dedupGoals]
    split
    · simp only [ih]
    · simp only [ih]

theorem dedupTasks_entries (u : Nat) (cs : List CandidateTask) (pool : List Text)
    (s : Store) : (dedupTasks u cs pool s).1.entries = s.entries := by
  induction cs generalizing pool s with
  | nil => rfl
  | cons c cs ih =>
    rw [dedupTasks]
    split
    · simp only [ih]
    · simp only [ih]

theorem dedupHabits_entries (u : Nat) (cs : List CandidateHabit) (pool : List Text)
    (s : Store) : (dedupHabits u cs pool s).1.entries = s.entries := by
  induction cs generalizing pool s with
  | nil => rfl
  | cons c cs ih =>
    rw [dedupHabits]
    split
    · simp only [ih]
    · simp only [ih]

theorem runOnBatch_entries_ok (extract : ExtractFn) (s : Store) (u : Nat)
    (batch : List JournalEntry) (hne : batch ≠ []) (res : ExtractionResult)
    (hex : extract batch = .ok res) :
    (runOnBatch extract s u batch).1.entries =
      s.entries.map (markEntry (batch.map (fun e => e.id))) := by
  unfold runOnBatch
  rw [if_neg (by simpa [List.isEmpty_iff] using hne), hex]
  simp only [markAnalyzed, dedupHabits_entries, dedupTasks_entries, dedupGoals_entries]

theorem runOnBatch_entries_cases (extract : ExtractFn) (s : Store) (u : Nat)
    (batch : List JournalEntry) :
    (runOnBatch extract s u batch).1.entries = s.entries ∨
      ∃ ids, (runOnBatch extract s u batch).1.entries = s.entries.map (markEntry ids) := by
  unfold runOnBatch
  by_cases hb : batch.isEmpty = true
  · rw [if_pos hb]; exact Or.inl rfl
  · rw [if_neg hb]
    cases hex : extract batch with
    | error e => exact Or.inl rfl
    | ok res =>
      refine Or.inr ⟨batch.map (fun e => e.id), ?_⟩
      simp only [markAnalyzed, dedupHabits_entries, dedupTasks_entries, dedupGoals_entries]

theorem runOnBatch_no_extract_iff (extract : ExtractFn) (s : Store) (u : Nat)
    (batch : List JournalEntry) :
    (runOnBatch extract s u batch).2.1 = false ↔ batch = [] := by
  unfold runOnBatch
  by_cases hb : batch.isEmpty = true
  · rw [if_pos hb]
    simpa [List.isEmpty_iff] using hb
  · rw [if_neg hb]
    have : ¬batch = [] := by simpa [List.isEmpty_iff] using hb
    cases hex : extract batch <;> simpa using this

theorem selectUnanalyzed_all (s : Store) (u limit : Nat)
    (h : (getUnanalyzedJournalEntriesByUserId s u).length ≤ limit) :
    (selectUnanalyzed s u limit).Perm (getUnanalyzedJournalEntriesByUserId s u) := by
  unfold selectUnanalyzed
  have hperm := List.perm_insertionSort dateLe (getUnanalyzedJournalEntriesByUserId s u)
  rw [List.take_of_length_le (by rw [hperm.length_eq]; exact h)]
  exact hperm

theorem runForUser_clears (extract : ExtractFn) (s : Store) (u limit : Nat)
    (h : (getUnanalyzedJournalEntriesByUserId s u).length ≤ limit)
    (sum : RunSummary) (hok : (runForUser extract s u limit).2.2 = .ok sum) :
    getUnanalyzedJournalEntriesByUserId (runForUser extract s u limit).1 u = [] := by
  have hperm := selectUnanalyzed_all s u limit h
  by_cases hb : selectUnanalyzed s u limit = []
  · have hfilt : getUnanalyzedJournalEntriesByUserId s u = [] := by
      have := hperm.length_eq
      rw [hb] at this
      exact List.length_eq_zero.mp this.symm
    unfold runForUser runOnBatch
    rw [hb]
    simpa using hfilt
  · unfold runForUser at hok ⊢
    cases hex : extract (selectUnanalyzed s u limit) with
    | error e =>
      exfalso
      unfold runOnBatch at hok
      rw [if_neg (by simpa [List.isEmpty_iff] using hb), hex] at hok
      simp at hok
    | ok res =>
      unfold getUnanalyzedJournalEntriesByUserId at hperm ⊢
      rw [runOnBatch_entries_ok extract s u _ hb res hex]
      rw [List.filter_eq_nil_iff]
      intro x hx
      rcases List.mem_map.mp hx with ⟨e, he, hme⟩
      intro hpred
      unfold markEntry at hme
      by_cases hc : ((selectUnanalyzed s u limit).map (fun e => e.id)).contains e.id = true
      · rw [if_pos hc] at hme
        rw [← hme] at hpred
        simp at hpred
      · rw [if_neg hc] at hme
        subst hme
        have hmem : e ∈ s.entries.filter
            (fun e => e.userId == u && e.isJournal && !e.analyzed) :=
          List.mem_filter.mpr ⟨he, hpred⟩
        have hmem' : e ∈ selectUnanalyzed s u limit := hperm.mem_iff.mpr hmem
        exact hc ((contains_iff_mem _ _).mpr
          (List.mem_map.mpr ⟨e, hmem', rfl⟩))

/-! ## Lemmas about the analyzed-flag lifecycle -/

theorem map_markEntry_nil (l : List JournalEntry) : l.map (markEntry []) = l :=
  map_eq_self_of_forall _ _ (fun e _ => markEntry_nil e)

theorem entries_shape_id (l : List JournalEntry) :
    l = (l ++ []).map (markEntry []) := by
  rw [List.append_nil, map_markEntry_nil]

theorem flagRank_markEntry (ids : List Nat) (e : JournalEntry) :
    flagRank (some e.analyzed) ≤ flagRank (some (markEntry ids e).analyzed) := by
  unfold markEntry
  split
  · cases e.analyzed <;> simp [flagRank]
  · exact Nat.le_refl _

theorem flagStep_mark_append (l new : List JournalEntry) (ids : List Nat) (eid : Nat) :
    flagStep (lookFlag l eid) (lookFlag ((l ++ new).map (markEntry ids)) eid) := by
  unfold flagStep lookFlag
  rw [find?_map_pres _ _ _ (fun x => by rw [markEntry_id]), List.find?_append]
  cases hl : l.find? (fun e => e.id == eid) with
  | none =>
    simp only [Option.none_or]
    cases (new.find? (fun e => e.id == eid)).map (markEntry ids) <;> simp [flagRank]
  | some e =>
    show flagRank ((some e).map (fun e => e.analyzed)) ≤
      flagRank (((some e).or (new.find? (fun e => e.id == eid))).map
        (fun e => (markEntry ids e).analyzed))
    simp only [Option.or, Option.map_some']
    exact flagRank_markEntry ids e

theorem processSingleEntry_entries (extract : ExtractFn) (s : Store) (eid : Nat) :
    ∃ ids, (processSingleEntry extract s eid).1.entries = s.entries.map (markEntry ids) := by
  unfold processSingleEntry
  cases hf : s.entries.find? (fun e => e.id == eid) with
  | none => exact ⟨[], (map_markEntry_nil s.entries).symm⟩
  | some e =>
    dsimp only
    by_cases hlen : e.content.length < minContentLength
    · rw [if_pos hlen]
      exact ⟨[eid], rfl⟩
    · rw [if_neg hlen]
      rcases runOnBatch_entries_cases extract s e.userId [e] with h | ⟨ids, h⟩
      · exact ⟨[], by simpa [map_markEntry_nil] using h⟩
      · exact ⟨ids, h⟩

theorem applySystemOp_entries_shape (s : Store) (op : SystemOp) :
    ∃ ids new, (applySystemOp s op).entries = (s.entries ++ new).map (markEntry ids) := by
  cases op with
  | postJournal ex tf u c tr d =>
    show ∃ ids new, (postJournalEntryHandler ex tf s u c tr d).store.entries = _
    unfold postJournalEntryHandler
    cases c with
    | none => exact ⟨[], [], entries_shape_id s.entries⟩
    | some c =>
      dsimp only
      by_cases hv : (trimT c).isEmpty = true
      · rw [if_pos hv]
        exact ⟨[], [], entries_shape_id s.entries⟩
      · rw [if_neg hv]
        by_cases hlen : c.length > 100
        · rw [if_pos hlen]
          exact Exists.elim (processSingleEntry_entries ex _ s.nextId)
            (fun ids h => ⟨ids, _, h⟩)
        · rw [if_neg hlen]
          exact ⟨[s.nextId], _, rfl⟩
  | saveChat ex u c t tr d =>
    show ∃ ids new, (saveChatHandler ex s u c t tr d).store.entries = _
    unfold saveChatHandler
    dsimp only
    exact Exists.elim (processSingleEntry_entries ex _ s.nextId)
      (fun ids h => ⟨ids, _, h⟩)
  | generate ex u =>
    show ∃ ids new, (generateSuggestionsHandler ex s u).1.entries = _
    unfold generateSuggestionsHandler
    by_cases hb : (getUnanalyzedJournalEntriesByUserId s u).isEmpty = true
    · rw [if_pos hb]
      exact ⟨[], [], entries_shape_id s.entries⟩
    · rw [if_neg hb]
      unfold runForUser
      rcases runOnBatch_entries_cases ex s u (selectUnanalyzed s u 3) with h | ⟨ids, h⟩
      · exact ⟨[], [], by rw [h]; exact entries_shape_id s.entries⟩
      · exact ⟨ids, [], by rw [h, List.append_nil]⟩
  | processUser ex u =>
    show ∃ ids new, (processUserHandler ex s u).1.entries = _
    unfold processUserHandler runForUser
    rcases runOnBatch_entries_cases ex s u (selectUnanalyzed s u defaultRunLimit)
      with h | ⟨ids, h⟩
    · exact ⟨[], [], by rw [h]; exact entries_shape_id s.entries⟩
    · exact ⟨ids, [], by rw [h, List.append_nil]⟩
  | acceptGoal r g =>
    show ∃ ids new, (acceptAiGoalHandler s r g).1.entries = _
    unfold acceptAiGoalHandler
    refine ⟨[], [], ?_⟩
    cases getAiGoalById s g with
    | none => exact entries_shape_id s.entries
    | some gg =>
      dsimp only
      split
      · exact entries_shape_id s.entries
      · exact entries_shape_id s.entries
  | rejectGoal r g =>
    show ∃ ids new, (rejectAiGoalHandler s r g).1.entries = _
    unfold rejectAiGoalHandler
    refine ⟨[], [], ?_⟩
    cases getAiGoalById s g with
    | none => exact entries_shape_id s.entries
    | some gg =>
      dsimp only
      split
      · exact entries_shape_id s.entries
      · exact entries_shape_id s.entries
  | rejectHabit r h =>
    show ∃ ids new, (rejectAiHabitHandler s r h).1.entries = _
    unfold rejectAiHabitHandler
    refine ⟨[], [], ?_⟩
    cases getAiHabitById s h with
    | none => exact entries_shape_id s.entries
    | some hh =>
      dsimp only
      split
      · exact entries_shape_id s.entries
      · exact entries_shape_id s.entries

theorem applySystemOp_flagStep (s : Store) (op : SystemOp) (eid : Nat) :
    flagStep (entryAnalyzed s eid) (entryAnalyzed (applySystemOp s op) eid) := by
  rcases applySystemOp_entries_shape s op with ⟨ids, new, h⟩
  unfold entryAnalyzed
  rw [h]
  exact flagStep_mark_append s.entries new ids eid

theorem flagTrace_chain (s : Store) (ops : List SystemOp) (eid : Nat) :
    List.Chain' flagStep (flagTrace s ops eid) := by
  induction ops generalizing s with
  | nil => exact List.chain'_singleton _
  | cons op ops ih =>
    show List.Chain' flagStep (entryAnalyzed s eid ::
      entryAnalyzed (applySystemOp s op) eid ::
      (runOps (applySystemOp s op) ops).map (fun st => entryAnalyzed st eid))
    rw [List.chain'_cons]
    exact ⟨applySystemOp_flagStep s op eid, ih (applySystemOp s op)⟩

theorem flagRank_two_iff (a : Option Bool) : flagRank a = 2 ↔ a = some true := by
  cases a with
  | none => simp [flagRank]
  | some b => cases b <;> simp [flagRank]

theorem countFT_of_true_head (t : List (Option Bool))
    (h : List.Chain' flagStep (some true :: t)) : countFT (some true :: t) = 0 := by
  induction t with
  | nil => rfl
  | cons b t' ih =>
    rw [List.chain'_cons] at h
    have hb : b = some true := by
      rcases h with ⟨h1, _⟩
      cases b with
      | none => simp [flagStep, flagRank] at h1
      | some bb =>
        cases bb
        · simp [flagStep, flagRank] at h1
        · rfl
    subst hb
    rw [countFT, if_neg (by simp), ih h.2]

theorem countFT_le_one (l : List (Option Bool)) (h : List.Chain' flagStep l) :
    countFT l ≤ 1 := by
  induction l with
  | nil => exact Nat.zero_le _
  | cons a t ih =>
    cases t with
    | nil => exact Nat.zero_le _
    | cons b t' =>
      rw [List.chain'_cons] at h
      by_cases hab : a = some false ∧ b = some true
      · rw [countFT, if_pos hab]
        rw [hab.2] at h
        rw [hab.2, countFT_of_true_head t' h.2]
      · rw [countFT, if_neg hab]
        simpa using ih h.2

/-! ## Claim theorems -/

/-- C6: along any sequence of pipeline-driven operations, the analyzed
flag of every journal entry only ever moves forward (absent, then
unanalyzed, then analyzed) — so it never reverts from true to false — and
it transitions from false to true at most once. -/
theorem claim_C6_analyzed_flag_monotone (s : Store) (ops : List SystemOp) (eid : Nat) :
    List.Chain' flagStep (flagTrace s ops eid) ∧ countFT (flagTrace s ops eid) ≤ 1 :=
  ⟨flagTrace_chain s ops eid, countFT_le_one _ (flagTrace_chain s ops eid)⟩

/-- C8: `normalize` is a total pure function whose output is lower-cased
(no ASCII capital remains), trimmed at the front, free of adjacent
whitespace, and free of trailing whitespace and terminal punctuation; it
is idempotent, and `isDuplicate` applies the very same normalization to
the incoming candidate and to every stored text, so pre-normalizing either
side never changes a comparison. -/
theorem claim_C8_normalizer :
    (∀ t : Text,
      (∀ x ∈ normalize t, ¬(65 ≤ x ∧ x ≤ 90)) ∧
      (∀ c, (normalize t).head? = some c → isWs c = false) ∧
      (∀ c, endChar (normalize t) = some c → isWs c = false ∧ isTermPunct c = false) ∧
      noAdjWs (normalize t) ∧
      normalize (normalize t) = normalize t) ∧
    (∀ (cand : Text) (es : List Text),
      isDuplicate (normalize cand) es = isDuplicate cand es ∧
      isDuplicate cand (es.map normalize) = isDuplicate cand es) := by
  constructor
  · intro t
    refine ⟨normalize_no_upper t, fun c hc => normalize_head_not_ws t hc,
      fun c hc => ?_, normalize_noAdjWs t, normalize_idem t⟩
    have hj := normalize_endChar t hc
    unfold isEndJunk at hj
    exact Bool.or_eq_false_iff.mp hj
  · intro cand es
    exact ⟨isDuplicate_normalize_cand cand es, isDuplicate_normalize_pool cand es⟩

/-- Witness for C8 at the concrete input "  Read  BOOKS!! ", whose
canonical form is "read books": the first character code 114 is not an
ASCII capital and not whitespace, and the last character code 115 is
neither whitespace nor terminal punctuation. -/
theorem claim_C8_normalizer_witness :
    ¬(65 ≤ 114 ∧ 114 ≤ 90) ∧ isWs 114 = false ∧
      (isWs 115 = false ∧ isTermPunct 115 = false) :=
  ⟨(claim_C8_normalizer.1 (str "  Read  BOOKS!! ")).1 114 (by decide),
    (claim_C8_normalizer.1 (str "  Read  BOOKS!! ")).2.1 114 (by decide),
    (claim_C8_normalizer.1 (str "  Read  BOOKS!! ")).2.2.1 115 (by decide)⟩

theorem any_three (p : Text → Bool) (k1 k2 k3 : Text) :
    [k1, k2, k3].any p = (p k1 || p k2 || p k3) := by
  simp [Bool.or_assoc]

theorem any_four (p : Text → Bool) (k1 k2 k3 k4 : Text) :
    [k1, k2, k3, k4].any p = (p k1 || p k2 || p k3 || p k4) := by
  simp [Bool.or_assoc]

/-- C9: the goal-category heuristic is the pure classification function
given by the fixed keyword table with fixed precedence, and in particular
a name whose lower-cased form contains "read", "learn" or "study" is
always categorized Learning, whatever later rules would match. -/
theorem claim_C9_category_heuristic :
    (∀ name, getGoalCategory name = categoryByTable name) ∧
    (∀ name, (containsSub (lower name) (str "read") ||
        containsSub (lower name) (str "learn") ||
        containsSub (lower name) (str "study")) = true →
      getGoalCategory name = Category.Learning) := by
  have hmain : ∀ name, getGoalCategory name = categoryByTable name := by
    intro name
    unfold getGoalCategory categoryByTable categoryTable
    dsimp only
    by_cases h1 : (containsSub (lower name) (str "read") ||
        containsSub (lower name) (str "learn") ||
        containsSub (lower name) (str "study")) = true
    · rw [if_pos h1, List.find?_cons_of_pos _ (show _ = true by
        show [str "read", str "learn", str "study"].any
          (fun k => containsSub (lower name) k) = true
        rw [any_three]
        exact h1)]
    · rw [if_neg h1, List.find?_cons_of_neg _ (by
        show ¬[str "read", str "learn", str "study"].any
          (fun k => containsSub (lower name) k) = true
        rw [any_three]
        exact h1)]
      by_cases h2 : (containsSub (lower name) (str "exercise") ||
          containsSub (lower name) (str "workout") ||
          containsSub (lower name) (str "run") ||
          containsSub (lower name) (str "meditate")) = true
      · rw [if_pos h2, List.find?_cons_of_pos _ (show _ = true by
          show [str "exercise", str "workout", str "run", str "meditate"].any
            (fun k => containsSub (lower name) k) = true
          rw [any_four]
          exact h2)]
      · rw [if_neg h2, List.find?_cons_of_neg _ (by
          show ¬[str "exercise", str "workout", str "run", str "meditate"].any
            (fun k => containsSub (lower name) k) = true
          rw [any_four]
          exact h2)]
        by_cases h3 : (containsSub (lower name) (str "save") ||
            containsSub (lower name) (str "budget") ||
            containsSub (lower name) (str "invest")) = true
        · rw [if_pos h3, List.find?_cons_of_pos _ (show _ = true by
            show [str "save", str "budget", str "invest"].any
              (fun k => containsSub (lower name) k) = true
            rw [any_three]
            exact h3)]
        · rw [if_neg h3, List.find?_cons_of_neg _ (by
            show ¬[str "save", str "budget", str "invest"].any
              (fun k => containsSub (lower name) k) = true
            rw [any_three]
            exact h3)]
          by_cases h4 : (containsSub (lower name) (str "family") ||
              containsSub (lower name) (str "friend") ||
              containsSub (lower name) (str "relationship")) = true
          · rw [if_pos h4, List.find?_cons_of_pos _ (show _ = true by
              show [str "family", str "friend", str "relationship"].any
                (fun k => containsSub (lower name) k) = true
              rw [any_three]
              exact h4)]
          · rw [if_neg h4, List.find?_cons_of_neg _ (by
              show ¬[str "family", str "friend", str "relationship"].any
                (fun k => containsSub (lower name) k) = true
              rw [any_three]
              exact h4)]
            by_cases h5 : (containsSub (lower name) (str "job") ||
                containsSub (lower name) (str "career") ||
                containsSub (lower name) (str "work")) = true
            · rw [if_pos h5, List.find?_cons_of_pos _ (show _ = true by
                show [str "job", str "career", str "work"].any
                  (fun k => containsSub (lower name) k) = true
                rw [any_three]
                exact h5)]
            · rw [if_neg h5, List.find?_cons_of_neg _ (by
                show ¬[str "job", str "career", str "work"].any
                  (fun k => containsSub (lower name) k) = true
                rw [any_three]
                exact h5)]
              rfl
  refine ⟨hmain, fun name h => ?_⟩
  unfold getGoalCategory
  dsimp only
  rw [if_pos h]

/-- Witness for C9 at the concrete name "Run to learn parkour": the name
contains keywords of both the Learning rule and the Health rule and is
categorized Learning. -/
theorem claim_C9_category_heuristic_witness :
    getGoalCategory (str "Run to learn parkour") = Category.Learning :=
  claim_C9_category_heuristic.2 (str "Run to learn parkour") (by decide)

/-- C1: whenever the lower-cased name of an AI-suggested goal and the
lower-cased name of an existing goal of the same user contain one another,
the suggestion is classified as a duplicate and dropped; and in the
concrete scenario — durable goal "Read more books", extracted candidate
"read more books daily" — the pipeline run reports `goalsSkipped = 1`,
`goalsCreated = 0` and creates no suggestion row. -/
theorem claim_C1_substring_duplicate :
    (∀ (goals : List ClientGoal) (ais : List SuggestedGoalItem)
        (g : ClientGoal) (c : SuggestedGoalItem), g ∈ goals → c ∈ ais →
      (containsSub (lower g.name) (lower c.name) = true ∨
        containsSub (lower c.name) (lower g.name) = true) →
      c ∉ filterAiSuggestedGoals goals ais) ∧
    (runForUser c1Extract c1Store 1 3).2.2 =
      Except.ok (⟨0, 0, 0, 1, 0, 0⟩ : RunSummary) ∧
    (runForUser c1Extract c1Store 1 3).1.aiGoals = c1Store.aiGoals := by
  refine ⟨?_, by rfl, by rfl⟩
  intro goals ais g c hg hc hsub hmem
  unfold filterAiSuggestedGoals at hmem
  rw [if_pos (List.length_pos.mpr (List.ne_nil_of_mem hg))] at hmem
  rw [List.mem_filter] at hmem
  have hmatch : goalMatches (lower g.name) (lower c.name) = true := by
    unfold goalMatches
    rcases hsub with h | h <;> simp [h]
  have hany : (goals.any fun userGoal =>
      goalMatches (lower userGoal.name) (lower c.name)) = true :=
    List.any_eq_true.mpr ⟨g, hg, hmatch⟩
  rw [hany] at hmem
  simp at hmem

/-- Witness for C1: with the existing goal "Read more books", the
suggestion "read more books daily" is filtered out. -/
theorem claim_C1_substring_duplicate_witness :
    (⟨str "read more books daily", str ""⟩ : SuggestedGoalItem) ∉
      filterAiSuggestedGoals [⟨str "Read more books"⟩]
        [⟨str "read more books daily", str ""⟩] :=
  claim_C1_substring_duplicate.1 _ _ ⟨str "Read more books"⟩ _
    (by decide) (by decide) (Or.inr (by decide))

theorem trimT_all_ws {c : Text} (hc : c.all isWs = true) : (trimT c).isEmpty = true := by
  unfold trimT
  rw [List.dropWhile_eq_nil_iff.mpr (fun x hx => List.all_eq_true.mp hc x hx)]
  rfl

/-- C10: a journal-entry creation request whose content is absent, or
consists only of whitespace characters (which covers the empty content),
fails with status 400, leaves the store untouched, runs no sentiment
analysis and starts no suggestion processing. -/
theorem claim_C10_content_validation (extract : ExtractFn) (titleFn : Text → Text)
    (s : Store) (u : Nat) (tr : Option Text) (d : Nat) :
    postJournalEntryHandler extract titleFn s u none tr d =
      ⟨s, 400, false, false, false⟩ ∧
    ∀ c : Text, c.all isWs = true →
      postJournalEntryHandler extract titleFn s u (some c) tr d =
        ⟨s, 400, false, false, false⟩ := by
  refine ⟨rfl, fun c hc => ?_⟩
  unfold postJournalEntryHandler
  dsimp only
  rw [if_pos (trimT_all_ws hc)]

/-- Witness for C10: a whitespace-only save request on the empty store is
rejected with 400 and changes nothing. -/
theorem claim_C10_content_validation_witness :
    postJournalEntryHandler (fun _ => .error ()) (fun t => t)
      ⟨[], [], [], [], [], [], [], 0⟩ 1 (some [32, 9]) none 0 =
      ⟨⟨[], [], [], [], [], [], [], 0⟩, 400, false, false, false⟩ :=
  (claim_C10_content_validation (fun _ => .error ()) (fun t => t)
    ⟨[], [], [], [], [], [], [], 0⟩ 1 none 0).2 [32, 9] (by decide)

/-- C4: accept and reject of an AI-suggested goal fail with `notFound`
exactly when no suggestion with the requested id exists and with
`forbidden` exactly when the suggestion exists but is owned by another
user, and in every failure case the store is left completely unchanged. -/
theorem claim_C4_lifecycle_errors (s : Store) (r gid : Nat) :
    ((acceptAiGoalHandler s r gid).2 = .error .notFound ↔ getAiGoalById s gid = none) ∧
    ((acceptAiGoalHandler s r gid).2 = .error .forbidden ↔
      ∃ g, getAiGoalById s gid = some g ∧ g.userId ≠ r) ∧
    (∀ e, (acceptAiGoalHandler s r gid).2 = .error e →
      (acceptAiGoalHandler s r gid).1 = s) ∧
    ((rejectAiGoalHandler s r gid).2 = .error .notFound ↔ getAiGoalById s gid = none) ∧
    ((rejectAiGoalHandler s r gid).2 = .error .forbidden ↔
      ∃ g, getAiGoalById s gid = some g ∧ g.userId ≠ r) ∧
    (∀ e, (rejectAiGoalHandler s r gid).2 = .error e →
      (rejectAiGoalHandler s r gid).1 = s) := by
  unfold acceptAiGoalHandler rejectAiGoalHandler
  cases hg : getAiGoalById s gid with
  | none =>
    exact ⟨by simp, by simp, fun e _ => rfl, by simp, by simp, fun e _ => rfl⟩
  | some g =>
    dsimp only
    by_cases hr : r ≠ g.userId
    · rw [if_pos hr, if_pos hr]
      exact ⟨by simp, iff_of_true rfl ⟨g, rfl, Ne.symm hr⟩, fun e _ => rfl,
        by simp, iff_of_true rfl ⟨g, rfl, Ne.symm hr⟩, fun e _ => rfl⟩
    · rw [if_neg hr, if_neg hr]
      push_neg at hr
      have hforb : ¬∃ g', some g = some g' ∧ g'.userId ≠ r := by
        rintro ⟨g', hg', hne⟩
        cases hg'
        exact hne hr.symm
      exact ⟨by simp, iff_of_false (by simp) hforb, fun e he => absurd he (by simp),
        by simp, iff_of_false (by simp) hforb, fun e he => absurd he (by simp)⟩

/-- Witness for C4: on a store holding no suggestions, accepting and
rejecting suggestion 5 fail and leave the store unchanged. -/
theorem claim_C4_lifecycle_errors_witness :
    (acceptAiGoalHandler ⟨[], [], [], [], [], [], [], 0⟩ 1 5).1 =
        ⟨[], [], [], [], [], [], [], 0⟩ ∧
    (rejectAiGoalHandler ⟨[], [], [], [], [], [], [], 0⟩ 1 5).1 =
        ⟨[], [], [], [], [], [], [], 0⟩ :=
  ⟨(claim_C4_lifecycle_errors ⟨[], [], [], [], [], [], [], 0⟩ 1 5).2.2.1
      ApiError.notFound (by rfl),
    (claim_C4_lifecycle_errors ⟨[], [], [], [], [], [], [], 0⟩ 1 5).2.2.2.2.2
      ApiError.notFound (by rfl)⟩

/-- C5: rejecting an owned AI-suggested goal (or habit) succeeds, removes
exactly the rows with that suggestion id from the suggestion collection,
and leaves every other collection — durable goals, tasks, habits, the
other suggestion collections and the journal entries — unchanged. -/
theorem claim_C5_reject_frame (s : Store) (r : Nat) :
    (∀ gid g, getAiGoalById s gid = some g → g.userId = r →
      (rejectAiGoalHandler s r gid).2 = .ok () ∧
      (∀ x, x ∈ (rejectAiGoalHandler s r gid).1.aiGoals ↔
        x ∈ s.aiGoals ∧ x.id ≠ gid) ∧
      (rejectAiGoalHandler s r gid).1.goals = s.goals ∧
      (rejectAiGoalHandler s r gid).1.tasks = s.tasks ∧
      (rejectAiGoalHandler s r gid).1.habits = s.habits ∧
      (rejectAiGoalHandler s r gid).1.aiTasks = s.aiTasks ∧
      (rejectAiGoalHandler s r gid).1.aiHabits = s.aiHabits ∧
      (rejectAiGoalHandler s r gid).1.entries = s.entries) ∧
    (∀ hid h, getAiHabitById s hid = some h → h.userId = r →
      (rejectAiHabitHandler s r hid).2 = .ok () ∧
      (∀ x, x ∈ (rejectAiHabitHandler s r hid).1.aiHabits ↔
        x ∈ s.aiHabits ∧ x.id ≠ hid) ∧
      (rejectAiHabitHandler s r hid).1.goals = s.goals ∧
      (rejectAiHabitHandler s r hid).1.tasks = s.tasks ∧
      (rejectAiHabitHandler s r hid).1.habits = s.habits ∧
      (rejectAiHabitHandler s r hid).1.aiGoals = s.aiGoals ∧
      (rejectAiHabitHandler s r hid).1.aiTasks = s.aiTasks ∧
      (rejectAiHabitHandler s r hid).1.entries = s.entries) := by
  constructor
  · intro gid g hg hu
    unfold rejectAiGoalHandler
    rw [hg]
    dsimp only
    rw [if_neg (fun hh => hh hu.symm)]
    refine ⟨rfl, fun x => ?_, rfl, rfl, rfl, rfl, rfl, rfl⟩
    rw [List.mem_filter]
    simp
  · intro hid h hh hu
    unfold rejectAiHabitHandler
    rw [hh]
    dsimp only
    rw [if_neg (fun hx => hx hu.symm)]
    refine ⟨rfl, fun x => ?_, rfl, rfl, rfl, rfl, rfl, rfl⟩
    rw [List.mem_filter]
    simp

/-- Witness for C5: rejecting the single owned suggestion of user 1
succeeds and empties the suggestion collection. -/
theorem claim_C5_reject_frame_witness :
    (rejectAiGoalHandler
        ⟨[], [], [], [], [⟨3, 1, str "walk", str ""⟩], [], [], 9⟩ 1 3).2 = .ok () ∧
    ((⟨3, 1, str "walk", str ""⟩ : AiGoal) ∈
        (rejectAiGoalHandler
          ⟨[], [], [], [], [⟨3, 1, str "walk", str ""⟩], [], [], 9⟩ 1 3).1.aiGoals ↔
      (⟨3, 1, str "walk", str ""⟩ : AiGoal) ∈
          [(⟨3, 1, str "walk", str ""⟩ : AiGoal)] ∧ (3 : Nat) ≠ 3) :=
  ⟨((claim_C5_reject_frame
      ⟨[], [], [], [], [⟨3, 1, str "walk", str ""⟩], [], [], 9⟩ 1).1 3
      ⟨3, 1, str "walk", str ""⟩ rfl rfl).1,
    ((claim_C5_reject_frame
      ⟨[], [], [], [], [⟨3, 1, str "walk", str ""⟩], [], [], 9⟩ 1).1 3
      ⟨3, 1, str "walk", str ""⟩ rfl rfl).2.1 ⟨3, 1, str "walk", str ""⟩⟩

theorem find?_append_fresh (l : List JournalEntry) (e : JournalEntry)
    (hfresh : ∀ x ∈ l, x.id ≠ e.id) :
    (l ++ [e]).find? (fun x => x.id == e.id) = some e := by
  rw [List.find?_append, List.find?_eq_none.mpr (fun x hx => by simp [hfresh x hx])]
  simp only [Option.none_or]
  rw [List.find?_cons_of_pos _ (by simp)]

theorem markEntry_self (ids : List Nat) (e : JournalEntry) (h : e.id ∈ ids) :
    markEntry ids e = { e with analyzed := true } := by
  unfold markEntry
  rw [if_pos ((contains_iff_mem _ _).mpr h)]

theorem lookFlag_mark_append (l : List JournalEntry) (e : JournalEntry)
    (hfresh : ∀ x ∈ l, x.id ≠ e.id) :
    lookFlag ((l ++ [e]).map (markEntry [e.id])) e.id = some true := by
  unfold lookFlag
  rw [find?_map_pres _ _ _ (fun x => by rw [markEntry_id]), find?_append_fresh l e hfresh]
  rw [Option.map_some', markEntry_self [e.id] e (by simp)]
  rfl

theorem marked_all (l : List JournalEntry) (ids : List Nat) (i : Nat) (hi : i ∈ ids) :
    ∀ x ∈ l.map (markEntry ids), x.id = i → x.analyzed = true := by
  intro x hx hxi
  rcases List.mem_map.mp hx with ⟨y, _, hxy⟩
  subst hxy
  rw [markEntry_id] at hxi
  rw [markEntry_self ids y (hxi ▸ hi)]

theorem processSingleEntry_short (extract : ExtractFn) (s0 : Store)
    (l : List JournalEntry) (e : JournalEntry) (hE : s0.entries = l ++ [e])
    (hfresh : ∀ x ∈ l, x.id ≠ e.id) (hshort : e.content.length < minContentLength) :
    processSingleEntry extract s0 e.id = (markAnalyzed s0 [e.id], false) := by
  unfold processSingleEntry
  rw [hE, find?_append_fresh l e hfresh]
  dsimp only
  rw [if_pos hshort]

/-- C3: saving a journal entry whose content is shorter than the minimum
content length — through the direct journal-entry route or through the
chat-save route — marks the new entry analyzed immediately and never
contacts the Extraction Client for it. -/
theorem claim_C3_short_content (extract : ExtractFn) (titleFn : Text → Text)
    (s : Store) (u : Nat) (c : Text) (d : Nat)
    (hshort : c.length < minContentLength)
    (hfresh : ∀ x ∈ s.entries, x.id ≠ s.nextId) :
    ((trimT c).isEmpty = false → ∀ tr : Option Text,
      (postJournalEntryHandler extract titleFn s u (some c) tr d).extractionCalled =
        false ∧
      entryAnalyzed (postJournalEntryHandler extract titleFn s u (some c) tr d).store
        s.nextId = some true ∧
      ∀ x ∈ (postJournalEntryHandler extract titleFn s u (some c) tr d).store.entries,
        x.id = s.nextId → x.analyzed = true) ∧
    (∀ title tr : Text,
      (saveChatHandler extract s u c title tr d).extractionCalled = false ∧
      entryAnalyzed (saveChatHandler extract s u c title tr d).store s.nextId =
        some true ∧
      ∀ x ∈ (saveChatHandler extract s u c title tr d).store.entries,
        x.id = s.nextId → x.analyzed = true) := by
  constructor
  · intro hv tr
    unfold postJournalEntryHandler
    dsimp only
    rw [if_neg (by rw [hv]; exact Bool.false_ne_true),
      if_neg (by unfold minContentLength at hshort; omega)]
    refine ⟨rfl, ?_, ?_⟩
    · exact lookFlag_mark_append s.entries
        ⟨s.nextId, u, c, titleFn c, d, false, true, tr.getD c, false⟩ hfresh
    · exact marked_all _ [s.nextId] s.nextId (by simp)
  · intro title tr
    unfold saveChatHandler
    dsimp only
    rw [processSingleEntry_short extract _ s.entries
      ⟨s.nextId, u, c, title, d, false, true, tr, false⟩ rfl hfresh hshort]
    refine ⟨rfl, ?_, ?_⟩
    · exact lookFlag_mark_append s.entries _ hfresh
    · exact marked_all _ [s.nextId] s.nextId (by simp)

/-- Witness for C3: saving the short content "hi" as user 1 on the empty
store does not contact extraction and the stored entry is analyzed. -/
theorem claim_C3_short_content_witness :
    (postJournalEntryHandler (fun _ => .error ()) (fun t => t)
      ⟨[], [], [], [], [], [], [], 0⟩ 1 (some (str "hi")) none 0).extractionCalled =
        false ∧
    entryAnalyzed (postJournalEntryHandler (fun _ => .error ()) (fun t => t)
      ⟨[], [], [], [], [], [], [], 0⟩ 1 (some (str "hi")) none 0).store 0 = some true :=
  ⟨((claim_C3_short_content (fun _ => .error ()) (fun t => t)
      ⟨[], [], [], [], [], [], [], 0⟩ 1 (str "hi") 0 (by decide)
      (by intro x hx; simp at hx)).1 (by decide) none).1,
    ((claim_C3_short_content (fun _ => .error ()) (fun t => t)
      ⟨[], [], [], [], [], [], [], 0⟩ 1 (str "hi") 0 (by decide)
      (by intro x hx; simp at hx)).1 (by decide) none).2.1⟩

/-- C7: a run triggered through `POST /api/suggestions/process-user` is
exactly a pipeline pass over `selectUnanalyzed s u 3`, and that batch
holds at most 3 entries, every one an unanalyzed journal entry of the
user, listed oldest-first, and no unanalyzed journal entry outside the
batch is older than any entry inside it. -/
theorem claim_C7_run_limit (extract : ExtractFn) (s : Store) (u : Nat) :
    processUserHandler extract s u = runOnBatch extract s u (selectUnanalyzed s u 3) ∧
    (selectUnanalyzed s u 3).length ≤ 3 ∧
    (∀ e ∈ selectUnanalyzed s u 3,
      e.userId = u ∧ e.isJournal = true ∧ e.analyzed = false) ∧
    List.Pairwise dateLe (selectUnanalyzed s u 3) ∧
    ∃ rest, (getUnanalyzedJournalEntriesByUserId s u).Perm
        (selectUnanalyzed s u 3 ++ rest) ∧
      ∀ e ∈ selectUnanalyzed s u 3, ∀ e' ∈ rest, e.date ≤ e'.date := by
  refine ⟨rfl, List.length_take_le 3 _, ?_, ?_, ?_⟩
  · intro e he
    have h1 : e ∈ List.insertionSort dateLe (getUnanalyzedJournalEntriesByUserId s u) :=
      (List.take_sublist 3 _).subset he
    have h2 : e ∈ getUnanalyzedJournalEntriesByUserId s u :=
      (List.perm_insertionSort dateLe _).mem_iff.mp h1
    have h3 := (List.mem_filter.mp h2).2
    simp only [Bool.and_eq_true, beq_iff_eq, Bool.not_eq_true'] at h3
    exact ⟨h3.1.1, h3.1.2, h3.2⟩
  · have hs : List.Pairwise dateLe
        (List.insertionSort dateLe (getUnanalyzedJournalEntriesByUserId s u)) :=
      List.sorted_insertionSort dateLe _
    exact hs.sublist (List.take_sublist 3 _)
  · refine ⟨(List.insertionSort dateLe (getUnanalyzedJournalEntriesByUserId s u)).drop 3,
      ?_, ?_⟩
    · unfold selectUnanalyzed
      rw [List.take_append_drop]
      exact (List.perm_insertionSort dateLe _).symm
    · have hs2 : List.Pairwise dateLe
          ((List.insertionSort dateLe (getUnanalyzedJournalEntriesByUserId s u)).take 3
            ++ (List.insertionSort dateLe
              (getUnanalyzedJournalEntriesByUserId s u)).drop 3) := by
        rw [List.take_append_drop]
        exact List.sorted_insertionSort dateLe _
      exact fun e he e' he' => (List.pairwise_append.mp hs2).2.2 e he e' he'

/-- Witness for C7: in the "Read more books" scenario state the selected
batch contains the single unanalyzed journal entry of user 1. -/
theorem claim_C7_run_limit_witness :
    c1Entry.userId = 1 ∧ c1Entry.isJournal = true ∧ c1Entry.analyzed = false :=
  (claim_C7_run_limit c1Extract c1Store 1).2.2.1 c1Entry (by decide)

/-- C2 (amended): a suggestion-generation run for a user with zero
unanalyzed journal entries answers with the all-zero summary without
contacting extraction and without touching the store; and a second run
right after a successful run reports the all-zero summary provided the
first run could consider every unanalyzed entry, i.e. the user had at
most 3 of them (the per-run limit). -/
theorem claim_C2_no_entries_zero_summary :
    (∀ (extract : ExtractFn) (s : Store) (u : Nat),
      getUnanalyzedJournalEntriesByUserId s u = [] →
      generateSuggestionsHandler extract s u = (s, false, .ok zeroSummary)) ∧
    (∀ (extract extract2 : ExtractFn) (s : Store) (u : Nat) (s1 : Store) (b : Bool)
        (sum : RunSummary),
      (getUnanalyzedJournalEntriesByUserId s u).length ≤ 3 →
      generateSuggestionsHandler extract s u = (s1, b, .ok sum) →
      generateSuggestionsHandler extract2 s1 u = (s1, false, .ok zeroSummary)) := by
  have hzero : ∀ (extract : ExtractFn) (s : Store) (u : Nat),
      getUnanalyzedJournalEntriesByUserId s u = [] →
      generateSuggestionsHandler extract s u = (s, false, .ok zeroSummary) := by
    intro extract s u h
    unfold generateSuggestionsHandler
    rw [if_pos (by rw [h]; rfl)]
  refine ⟨hzero, ?_⟩
  intro extract extract2 s u s1 b sum hle heq
  by_cases hemp : getUnanalyzedJournalEntriesByUserId s u = []
  · rw [hzero extract s u hemp] at heq
    have hs1 : s = s1 := congrArg (fun p => p.1) heq
    rw [← hs1]
    exact hzero extract2 s u hemp
  · unfold generateSuggestionsHandler at heq
    rw [if_neg (by simpa [List.isEmpty_iff] using hemp)] at heq
    have h1 : (runForUser extract s u 3).1 = s1 := by rw [heq]
    have h2 : (runForUser extract s u 3).2.2 = .ok sum := by rw [heq]
    have hcl := runForUser_clears extract s u 3 hle sum h2
    rw [h1] at hcl
    exact hzero extract2 s1 u hcl

/-- Witness for C2: on the empty store the run answers the all-zero
summary without contacting extraction, and a run after a successful run
over the single-entry scenario store is all-zero again. -/
theorem claim_C2_no_entries_zero_summary_witness :
    generateSuggestionsHandler (fun _ => .error ()) ⟨[], [], [], [], [], [], [], 0⟩ 1 =
      (⟨[], [], [], [], [], [], [], 0⟩, false, .ok zeroSummary) ∧
    generateSuggestionsHandler c1Extract
        (generateSuggestionsHandler c1Extract c1Store 1).1 1 =
      ((generateSuggestionsHandler c1Extract c1Store 1).1, false, .ok zeroSummary) :=
  ⟨claim_C2_no_entries_zero_summary.1 (fun _ => .error ())
      ⟨[], [], [], [], [], [], [], 0⟩ 1 rfl,
    claim_C2_no_entries_zero_summary.2 c1Extract c1Extract c1Store 1
      (generateSuggestionsHandler c1Extract c1Store 1).1
      (generateSuggestionsHandler c1Extract c1Store 1).2.1
      ⟨0, 0, 0, 1, 0, 0⟩ (by decide) (by rfl)⟩

/-- C2 counterexample: with four unanalyzed entries — one more than the
per-run limit of 3 — and an extraction stub that always proposes one goal
candidate, running the suggestion-generation endpoint twice with no new
entries in between does not yield an all-zero summary on the second run. -/
theorem claim_C2_counterexample :
    (generateSuggestionsHandler c2Extract
      (generateSuggestionsHandler c2Extract c2Store 1).1 1).2.2 ≠
      Except.ok zeroSummary := by
  have hval : (generateSuggestionsHandler c2Extract
      (generateSuggestionsHandler c2Extract c2Store 1).1 1).2.2 =
      Except.ok (⟨0, 0, 0, 1, 0, 0⟩ : RunSummary) := by rfl
  rw [hval]
  intro h
  have h2 : (⟨0, 0, 0, 1, 0, 0⟩ : RunSummary) = zeroSummary := Except.ok.inj h
  have h3 : (1 : Nat) = 0 := congrArg (fun r => r.goalsSkipped) h2
  exact absurd h3 (by decide)

end HopeLog
